import Mathlib

/-!
Verification development for the dep-verify dependency checker.

The library module (the single source file of the package) verifies that the
tarball a package registry serves for each dependency in a lockfile matches
the source archive published on GitHub for the corresponding release tag.
This file gives a shallow embedding of that module: external effects
(HTTP requests, the scratch-directory file system, decompression, hashing)
are supplied by an `Env` of response functions, and every function of the
source module is translated into a pure Lean function over that environment.
JavaScript exceptions become `Except` error values; the module-level mutable
registry URL becomes explicit state passed into and out of `verify`.
-/

namespace DepVerify

/-- Result of one HTTP request as observed by `downloadFile`: either an
`error` event on the stream, or a response carrying a status code (the body
bytes are streamed to the destination file either way). -/
inductive HttpResult where
  | netErr (msg : String)
  | status (code : Nat)
deriving DecidableEq

/-- Package metadata as consumed by the checker: the `repository.url` field
(`none` models a missing `repository` object or a missing `url` inside it)
and `dist-tags.latest` (`none` models a document without that property). -/
structure PackageInfo where
  repositoryUrl : Option String
  distTagsLatest : Option String
deriving DecidableEq

/-- Errors thrown inside one dependency's processing: a plain `Error` carrying
a message, or the array of errors with which the candidate-download race
rejects when every candidate fails. -/
inductive JsError where
  | simple (msg : String)
  | arr (msgs : List String)
deriving DecidableEq

/-- The external world: registry metadata requests (`request-promise` GET with
JSON parsing), raw HTTP downloads, `targz` decompression keyed by source and
destination, the recursive directory walk of `find.file`, `sha1-file`
hashing, `fs.access` existence checks, and the `url.parse` / `split` /
`path.basename` chain that turns a repository URL into a GitHub user and
repository name (a composite of Node library calls, modelled as one
environment function because no verified property depends on its internals). -/
structure Env where
  registry : String → Except String PackageInfo
  http : String → HttpResult
  decompress : String → String → Except String Unit
  walk : String → Except String (List String)
  sha1 : String → Except String String
  fexists : String → Bool
  parseGitHub : String → String × String

/-- Rendering of a possibly absent version inside a JavaScript template
literal: the value `undefined` prints as the text "undefined". -/
def jsShow : Option String → String
  | none => "undefined"
  | some s => s

/-- Removal of the leftmost occurrence of `pat`, leaving the list unchanged
when `pat` does not occur: the behaviour of JavaScript
`String.prototype.replace(pat, replacement)` with an empty replacement. -/
def dropFirstOcc (pat : List Char) : List Char → List Char
  | [] => []
  | c :: cs =>
    if pat.isPrefixOf (c :: cs) then (c :: cs).drop pat.length
    else c :: dropFirstOcc pat cs

/-- Models `file.replace(path, '')` in `getFileMap`. -/
def replaceFirst (s pat : String) : String := ⟨dropFirstOcc pat.data s.data⟩

/-- Models the regular-expression filter `/\.js$/` handed to `find.file`: the
path ends with the three characters ".js". -/
def endsWithJs (s : String) : Bool := ['s', 'j', '.'].isPrefixOf s.data.reverse

/-- The module-level initial value of `REGISTRY_BASE_URL`. -/
def DEFAULT_REGISTRY : String := "https://registry.npmjs.org"

/-- The module-level mutable state of the library: the `let REGISTRY_BASE_URL`
binding at the top of the module, reassigned by `verify` when it receives a
truthy `registryUrl` argument and kept across calls otherwise. -/
structure ModuleState where
  registryBaseUrl : String
deriving DecidableEq

/-- Models `path.resolve(TEMP_DIR, name)` under the conditions of a run: the
scratch directory is absolute and the file name relative, so resolution is
joining with a slash. -/
def resolvePath (d f : String) : String := d ++ "/" ++ f

/-- Characters after the last occurrence of `sep`, the whole string when
`sep` is absent: the final path component as extracted by Node's
`path.basename`. -/
def afterLast (sep : Char) (s : String) : String :=
  ⟨(s.data.reverse.takeWhile (fun c => c ≠ sep)).reverse⟩

/-- Models Node's `path.extname`: the suffix of the final path component from
its last dot, empty when the component has no dot or only a leading one. -/
def extname (s : String) : String :=
  let b := (afterLast '/' s).data
  let tail := b.reverse.takeWhile (fun c => c ≠ '.')
  if tail.length + 1 < b.length then ⟨'.' :: tail.reverse⟩ else ""

/-- Models Node's `path.basename(p, ext)`: the final component of `p` with the
suffix `ext` removed when it is a proper suffix of that component. -/
def basenameExt (p ext : String) : String :=
  let b := afterLast '/' p
  if ext.data ≠ [] ∧ ext.data <:+ b.data ∧ b.data ≠ ext.data then
    ⟨b.data.take (b.data.length - ext.data.length)⟩
  else b

/-- Models `getPackageInfoFromRegistry`: a `request-promise` GET of
`REGISTRY_BASE_URL/<dependency>` with JSON parsing; it rejects on transport
failure or a non-2xx status. -/
def getPackageInfoFromRegistry (env : Env) (base dependency : String) :
    Except String PackageInfo :=
  env.registry (base ++ "/" ++ dependency)

/-- Models the first-character test `String(res.statusCode)[0] !== '2'` of
`downloadFile`. -/
def status2xx (c : Nat) : Bool := (toString c).front == '2'

/-- Models `downloadFile`: resolves the destination inside the scratch
directory, streams the URL there, and resolves with the destination path on a
2xx status; it rejects with the transport error, or with an `Error` whose
message is the status code, otherwise. -/
def downloadFile (env : Env) (tempDir url fileName : String) : Except String String :=
  let destinationPath := resolvePath tempDir fileName
  match env.http url with
  | .netErr m => .error m
  | .status c => if status2xx c then .ok destinationPath else .error (toString c)

/-- Models `getPackageLatestVersion`. The source awaits the raw `request`
library call (not `request-promise`, which is used only for the metadata
fetch): `request({...})` returns a Request stream object rather than a
promise of the parsed body, so the `await` yields the Request object,
`response['dist-tags']` is `undefined`, and the `.latest` member access
always throws a `TypeError` before any response is consumed. The function
therefore always rejects; it can never return the latest tag. -/
def getPackageLatestVersion (_env : Env) (_base _name : String) : Except JsError String :=
  .error (.simple ("TypeError: Cannot read property of undefined"))

/-- The registry tarball URL: the base, the package name, the literal segment
"-", then `<name>-<version>.tgz`. -/
def npmTarballUrl (base name ver : String) : String :=
  base ++ "/" ++ name ++ "/-/" ++ name ++ "-" ++ ver ++ ".tgz"

/-- The local file name used for the registry-side tarball. -/
def npmTgzName (name ver : String) : String := name ++ "-" ++ ver ++ "-npm.tgz"

/-- Models `downloadCompressedFileFromNpm`: a falsy version field triggers a
latest-version lookup before the tarball URL is built — a lookup that in the
source always throws (see `getPackageLatestVersion`), so the falsy-version
path always rejects; with a truthy version the download resolves with the
local path and the version used. -/
def downloadCompressedFileFromNpm (env : Env) (base tempDir name : String)
    (version : Option String) : Except JsError (String × String) :=
  let resolved : Except JsError String :=
    match version with
    | some v => if v.isEmpty then getPackageLatestVersion env base name else .ok v
    | none => getPackageLatestVersion env base name
  match resolved with
  | .error e => .error e
  | .ok ver =>
    match downloadFile env tempDir (npmTarballUrl base name ver) (npmTgzName name ver) with
    | .error m => .error (.simple m)
    | .ok p => .ok (p, ver)

/-- Determinized model of the `promise-any` race over the ordered candidate
list: the first listed success wins; when every candidate fails the race
rejects with the array of all individual failures in candidate order. This
erases the race's timing (adequate only for timing-independent properties:
which single candidate can win, and the aggregate failure); the
timing-faithful model is `promiseAnyTimed` below, which takes the temporal
order of fulfilment as an explicit input. -/
def promiseAny {α : Type} : List (Except String α) → Except (List String) α
  | [] => .error []
  | .ok a :: _ => .ok a
  | .error e :: rest =>
    match promiseAny rest with
    | .ok a => .ok a
    | .error es => .error (e :: es)

/-- The GitHub archive URL for the `v<version>` tag-naming convention. -/
def ghArchiveUrlV (user repo vs : String) : String :=
  "https://github.com/" ++ user ++ "/" ++ repo ++ "/archive/v" ++ vs ++ ".tar.gz"

/-- The GitHub archive URL for the bare `<version>` tag-naming convention. -/
def ghArchiveUrlPlain (user repo vs : String) : String :=
  "https://github.com/" ++ user ++ "/" ++ repo ++ "/archive/" ++ vs ++ ".tar.gz"

/-- The local file name used when the `v<version>` candidate wins. -/
def ghTgzName (name vs : String) : String := name ++ "-" ++ vs ++ "-gh.tgz"

/-- The local file name used when the bare `<version>` candidate wins. -/
def ghTarGzName (name vs : String) : String := name ++ "-" ++ vs ++ "-gh.tar.gz"

/-- Models `downloadCompressedFileFromGitHub`: throws when the metadata has a
falsy `repository` or `repository.url`, otherwise derives the GitHub user and
repository name from the repository URL and races the two candidate archive
URLs, resolving with the winning local path and the repository name. -/
def downloadCompressedFileFromGitHub (env : Env) (tempDir name : String)
    (version : Option String) (packageInfo : PackageInfo) :
    Except JsError (String × String) :=
  match packageInfo.repositoryUrl with
  | none => .error (.simple ("package info doesn\x27t contains repository info"))
  | some ru =>
    if ru.isEmpty then .error (.simple ("package info doesn\x27t contains repository info"))
    else
      let ur := env.parseGitHub ru
      let vs := jsShow version
      match promiseAny
          [downloadFile env tempDir (ghArchiveUrlV ur.1 ur.2 vs) (ghTgzName name vs),
           downloadFile env tempDir (ghArchiveUrlPlain ur.1 ur.2 vs) (ghTarGzName name vs)] with
      | .ok p => .ok (p, ur.2)
      | .error es => .error (.arr es)

/-- The per-dependency result of the loop body of `verify`, as observable in
its logging and in the `dependenciesWithDifferences` accumulator: all hashes
matched; some hashes differed (with the collected paths); an error was thrown
and caught by the outer catch of the loop body; an error was thrown and
caught by the inner catch around the comparison loop; or the silent `continue`
taken when a download resolved with a falsy path. -/
inductive Outcome where
  | OK
  | MISMATCH (paths : List String)
  | ERRORC (e : JsError)
  | INNERERR (msg : String)
  | silent
deriving DecidableEq

/-- Models `findFiles`: the recursive walk of `find.file` under `root` with
the `/\.js$/` filter; a traversal failure rejects. -/
def findFiles (env : Env) (root : String) : Except String (List String) :=
  match env.walk root with
  | .error e => .error e
  | .ok files => .ok (files.filter endsWithJs)

/-- One step of building the file-map object: the assignment
`result[key] = true` adds the key when it is not already present and keeps
the original position otherwise. -/
def insertKey (acc : List String) (k : String) : List String :=
  if k ∈ acc then acc else acc ++ [k]

/-- Models `getFileMap`: finds the script files under `path` and keys the map
by each found path with the first occurrence of `path` removed; since every
stored value is `true`, the map is represented by its keys in insertion
order. -/
def getFileMap (env : Env) (path : String) : Except String (List String) :=
  match findFiles env path with
  | .error e => .error e
  | .ok files => .ok (files.foldl (fun acc file => insertKey acc (replaceFirst file path)) [])

/-- Models `getHash` (promisified `sha1-file`). -/
def getHash (env : Env) (file : String) : Except String String := env.sha1 file

/-- Models `fileExists` (`fs.access`, resolving a boolean and never rejecting). -/
def fileExists (env : Env) (filePath : String) : Bool := env.fexists filePath

/-- Models the file-comparison loop of `verify` (the `for` over the npm file
map): each iteration hashes the npm-side file, skips paths absent on the
GitHub side while logging a missing-file warning, and appends paths whose two
hashes differ to `differentFiles`. Returns the mismatched paths and the
warned missing paths, both in iteration order; a hashing rejection propagates
to the inner catch. -/
def compareLoop (env : Env) (npmRoot ghRoot : String) :
    List String → Except String (List String × List String)
  | [] => .ok ([], [])
  | mapKey :: rest =>
    match getHash env (npmRoot ++ mapKey) with
    | .error e => .error e
    | .ok hashNpm =>
      if fileExists env (ghRoot ++ mapKey) then
        match getHash env (ghRoot ++ mapKey) with
        | .error e => .error e
        | .ok hashGH =>
          match compareLoop env npmRoot ghRoot rest with
          | .error e => .error e
          | .ok dw => .ok ((if hashNpm ≠ hashGH then mapKey :: dw.1 else dw.1), dw.2)
      else
        match compareLoop env npmRoot ghRoot rest with
        | .error e => .error e
        | .ok dw => .ok (dw.1, mapKey :: dw.2)

/-- Models the inner try of the loop body: run the comparison loop; a thrown
error is caught and logged without recording anything, an empty
`differentFiles` is the all-hashes-matched outcome, and a non-empty one is
the mismatch outcome carrying the collected paths. -/
def compareStage (env : Env) (npmRoot ghRoot : String) (keys : List String) : Outcome :=
  match compareLoop env npmRoot ghRoot keys with
  | .error e => .INNERERR e
  | .ok dw => if dw.1.length = 0 then .OK else .MISMATCH dw.1

/-- The GitHub-side directory against which npm files are compared: the
decompression destination joined with `<repo>-<version>`, where the version
is the original manifest field rendered the JavaScript way when absent. -/
def ghCompareRoot (ghDec repoName : String) (version : Option String) : String :=
  ghDec ++ "/" ++ repoName ++ "-" ++ jsShow version

/-- The condition under which the comparison loop records a path as
mismatched: the GitHub-side file exists and the two hashes are both computed
and disagree. -/
def mismatchAt (env : Env) (npmRoot ghRoot mapKey : String) : Bool :=
  fileExists env (ghRoot ++ mapKey) &&
    match getHash env (npmRoot ++ mapKey), getHash env (ghRoot ++ mapKey) with
    | .ok a, .ok b => a != b
    | _, _ => false

/-- Models the body of the dependency loop of `verify` after the metadata
fetch, that is everything inside the outer try: GitHub download, npm
download, the falsy-destination check, both decompressions, both file maps
(the GitHub-side map is built but never read afterwards), and the comparison
stage. Every error thrown here is caught at this boundary and yields an
error outcome instead of aborting. -/
def processDependency (env : Env) (base tempDir key : String) (version : Option String)
    (packageInfo : PackageInfo) : Outcome :=
  match downloadCompressedFileFromGitHub env tempDir key version packageInfo with
  | .error e => .ERRORC e
  | .ok gh =>
    match downloadCompressedFileFromNpm env base tempDir key version with
    | .error e => .ERRORC e
    | .ok npm =>
      let npmDecompressedDestination := resolvePath tempDir (basenameExt npm.1 (extname npm.1))
      let githubDecompressedDestination := resolvePath tempDir (basenameExt gh.1 (extname gh.1))
      if gh.1.isEmpty || npm.1.isEmpty then .silent
      else
        match env.decompress npm.1 npmDecompressedDestination with
        | .error e => .ERRORC (.simple e)
        | .ok _ =>
          match env.decompress gh.1 githubDecompressedDestination with
          | .error e => .ERRORC (.simple e)
          | .ok _ =>
            match getFileMap env (npmDecompressedDestination ++ "/package") with
            | .error e => .ERRORC (.simple e)
            | .ok fileMapFromNPM =>
              match getFileMap env (ghCompareRoot githubDecompressedDestination gh.2 version) with
              | .error e => .ERRORC (.simple e)
              | .ok _fileMapFromGH =>
                compareStage env (npmDecompressedDestination ++ "/package")
                  (ghCompareRoot githubDecompressedDestination gh.2 version) fileMapFromNPM

/-- Models the dependency loop of `verify` together with its final summary
data: one outcome per manifest entry in manifest order, plus
`dependenciesWithDifferences`, the ordered list of `(name, difference count)`
pairs from which the final report message is built. The metadata fetch
stands before the try of the loop body, so its rejection is uncaught and
rejects the whole run. -/
def runDeps (env : Env) (base tempDir : String) :
    List (String × Option String) →
      Except String (List (String × Outcome) × List (String × Nat))
  | [] => .ok ([], [])
  | entry :: rest =>
    match getPackageInfoFromRegistry env base entry.1 with
    | .error e => .error e
    | .ok packageInfo =>
      let oc := processDependency env base tempDir entry.1 entry.2 packageInfo
      match runDeps env base tempDir rest with
      | .error e => .error e
      | .ok tl =>
        .ok ((entry.1, oc) :: tl.1,
          match oc with
          | .MISMATCH paths => (entry.1, paths.length) :: tl.2
          | _ => tl.2)

/-- The value of `REGISTRY_BASE_URL` during a call of `verify`: the truthy
`registryUrl` argument when one is given, the inherited module state
otherwise. -/
def effectiveRegistry (registryUrl : Option String) (st : ModuleState) : String :=
  match registryUrl with
  | some r => if r.isEmpty then st.registryBaseUrl else r
  | none => st.registryBaseUrl

/-- Models the exported `verify`: reassigns the module-level registry URL when
the argument is truthy, then runs the dependency loop over the manifest
entries (lockfile loading, log configuration and the scratch-directory
argument are external adapters; the manifest arrives as the entry list).
Returns the observable result of the run and the module state left behind
for later calls. -/
def verify (env : Env) (dependencies : List (String × Option String)) (tempDir : String)
    (registryUrl : Option String) (st : ModuleState) :
    Except String (List (String × Outcome) × List (String × Nat)) × ModuleState :=
  let base := effectiveRegistry registryUrl st
  (runDeps env base tempDir dependencies, ⟨base⟩)


/-- Timing-faithful model of the `promise-any` race over the two candidate
downloads: both candidates run to completion; when both fulfil, `firstWins`
records whether the first-listed candidate fulfilled first in time and the
temporally first value is taken; when exactly one fulfils it wins regardless
of timing; when both reject, the race rejects with both errors in candidate
order. -/
def promiseAnyTimed {α : Type} (firstWins : Bool) (x y : Except String α) :
    Except (List String) α :=
  match x, y with
  | .ok a, .ok b => if firstWins then .ok a else .ok b
  | .ok a, .error _ => .ok a
  | .error _, .ok b => .ok b
  | .error e1, .error e2 => .error [e1, e2]

/-- Models `downloadCompressedFileFromGitHub` with the race's timing made
explicit: identical to `downloadCompressedFileFromGitHub` except that the
promise-any race over the two candidates takes `firstWins`, the record of
which candidate fulfilled first when both fulfil. The winning candidate
determines the returned local file name (`-gh.tgz` against `-gh.tar.gz`). -/
def downloadCompressedFileFromGitHubTimed (env : Env) (firstWins : Bool)
    (tempDir name : String) (version : Option String) (packageInfo : PackageInfo) :
    Except JsError (String × String) :=
  match packageInfo.repositoryUrl with
  | none => .error (.simple ("package info doesn\x27t contains repository info"))
  | some ru =>
    if ru.isEmpty then .error (.simple ("package info doesn\x27t contains repository info"))
    else
      let ur := env.parseGitHub ru
      let vs := jsShow version
      match promiseAnyTimed firstWins
          (downloadFile env tempDir (ghArchiveUrlV ur.1 ur.2 vs) (ghTgzName name vs))
          (downloadFile env tempDir (ghArchiveUrlPlain ur.1 ur.2 vs) (ghTarGzName name vs)) with
      | .ok p => .ok (p, ur.2)
      | .error es => .error (.arr es)

/-- The loop body of `verify` with the GitHub race's timing made explicit:
identical to `processDependency` except for the timed GitHub download. The
winning candidate's file name flows into the decompression destination and
from there into the comparison roots. -/
def processDependencyTimed (env : Env) (firstWins : Bool) (base tempDir key : String)
    (version : Option String) (packageInfo : PackageInfo) : Outcome :=
  match downloadCompressedFileFromGitHubTimed env firstWins tempDir key version packageInfo with
  | .error e => .ERRORC e
  | .ok gh =>
    match downloadCompressedFileFromNpm env base tempDir key version with
    | .error e => .ERRORC e
    | .ok npm =>
      let npmDecompressedDestination := resolvePath tempDir (basenameExt npm.1 (extname npm.1))
      let githubDecompressedDestination := resolvePath tempDir (basenameExt gh.1 (extname gh.1))
      if gh.1.isEmpty || npm.1.isEmpty then .silent
      else
        match env.decompress npm.1 npmDecompressedDestination with
        | .error e => .ERRORC (.simple e)
        | .ok _ =>
          match env.decompress gh.1 githubDecompressedDestination with
          | .error e => .ERRORC (.simple e)
          | .ok _ =>
            match getFileMap env (npmDecompressedDestination ++ "/package") with
            | .error e => .ERRORC (.simple e)
            | .ok fileMapFromNPM =>
              match getFileMap env (ghCompareRoot githubDecompressedDestination gh.2 version) with
              | .error e => .ERRORC (.simple e)
              | .ok _fileMapFromGH =>
                compareStage env (npmDecompressedDestination ++ "/package")
                  (ghCompareRoot githubDecompressedDestination gh.2 version) fileMapFromNPM

/-- The dependency loop of `verify` with the race timing explicit: `sched`
gives, per package name, which GitHub candidate fulfils first when both
fulfil. Identical to `runDeps` otherwise. -/
def runDepsTimed (env : Env) (sched : String → Bool) (base tempDir : String) :
    List (String × Option String) →
      Except String (List (String × Outcome) × List (String × Nat))
  | [] => .ok ([], [])
  | entry :: rest =>
    match getPackageInfoFromRegistry env base entry.1 with
    | .error e => .error e
    | .ok packageInfo =>
      let oc := processDependencyTimed env (sched entry.1) base tempDir entry.1 entry.2
        packageInfo
      match runDepsTimed env sched base tempDir rest with
      | .error e => .error e
      | .ok tl =>
        .ok ((entry.1, oc) :: tl.1,
          match oc with
          | .MISMATCH paths => (entry.1, paths.length) :: tl.2
          | _ => tl.2)

/-- The exported `verify` with the race timing explicit: identical to
`verify` except that the run additionally depends on `sched`, the record of
how each dependency's download race resolved in time. -/
def verifyTimed (env : Env) (sched : String → Bool)
    (dependencies : List (String × Option String)) (tempDir : String)
    (registryUrl : Option String) (st : ModuleState) :
    Except String (List (String × Outcome) × List (String × Nat)) × ModuleState :=
  let base := effectiveRegistry registryUrl st
  (runDepsTimed env sched base tempDir dependencies, ⟨base⟩)

deriving instance DecidableEq for Except

/-- Metadata document used by the concrete test environments: a GitHub
repository URL and a latest tag. -/
def infoStd : PackageInfo :=
  { repositoryUrl := some ("https://github.com/u/r.git"), distTagsLatest := some ("2.0.0") }

/-- A concrete environment in which every request succeeds: the registry
serves `infoStd` for every package, every download responds 200, the npm
package tree for `p` at version 1.0.0 holds `a.js` and `b.js`, every file
exists, and every hash is "h". -/
def baseEnv : Env :=
  { registry := fun _ => .ok infoStd
    http := fun _ => .status 200
    decompress := fun _ _ => .ok ()
    walk := fun root =>
      if root = "/tmp/p-1.0.0-npm/package" then
        .ok ["/tmp/p-1.0.0-npm/package/a.js", "/tmp/p-1.0.0-npm/package/b.js"]
      else .ok []
    sha1 := fun _ => .ok ("h")
    fexists := fun _ => true
    parseGitHub := fun _ => ("u", "r") }

/-- Variant of `baseEnv` in which the GitHub copy of `a.js` hashes
differently from its npm copy. -/
def envA : Env :=
  { baseEnv with
    sha1 := fun p => if p = "/tmp/p-1.0.0-gh/r-1.0.0/a.js" then .ok ("x") else .ok ("h") }

/-- Variant of `baseEnv` in which the GitHub copy of `b.js` hashes
differently from its npm copy. -/
def envB : Env :=
  { baseEnv with
    sha1 := fun p => if p = "/tmp/p-1.0.0-gh/r-1.0.0/b.js" then .ok ("x") else .ok ("h") }

/-- Variant of `baseEnv` whose npm walk lists `b.js` before `a.js` and in
which both GitHub copies hash differently from their npm copies. -/
def envC7 : Env :=
  { baseEnv with
    walk := fun root =>
      if root = "/tmp/p-1.0.0-npm/package" then
        .ok ["/tmp/p-1.0.0-npm/package/b.js", "/tmp/p-1.0.0-npm/package/a.js"]
      else .ok []
    sha1 := fun p =>
      if p = "/tmp/p-1.0.0-gh/r-1.0.0/a.js" ∨ p = "/tmp/p-1.0.0-gh/r-1.0.0/b.js" then
        .ok ("x")
      else .ok ("h") }

/-- Variant of `baseEnv` in which the GitHub copy of `b.js` is absent. -/
def envC4 : Env :=
  { baseEnv with fexists := fun p => p ≠ "/tmp/p-1.0.0-gh/r-1.0.0/b.js" }

/-- Variant of `baseEnv` whose registry rejects the metadata request for
package `a` with a transport error. -/
def envMetaFail : Env :=
  { baseEnv with
    registry := fun u =>
      if u = DEFAULT_REGISTRY ++ "/a" then .error ("network down") else .ok infoStd }

/-- Variant of `baseEnv` whose registry metadata carries no repository URL. -/
def envNoRepo : Env :=
  { baseEnv with
    registry := fun _ => .ok { repositoryUrl := none, distTagsLatest := some ("2.0.0") } }

/-- Variant of `baseEnv` in which every download responds 404 while the
registry metadata requests still succeed. -/
def env404 : Env := { baseEnv with http := fun _ => .status 404 }

/-- Variant of `baseEnv` in which only the bare-version GitHub archive
candidate responds 200; the `v`-prefixed candidate responds 404. -/
def envSecond : Env :=
  { baseEnv with
    http := fun u => if u = ghArchiveUrlV "u" "r" "1.0.0" then .status 404 else .status 200 }

/-- Variant of `baseEnv` in which both GitHub archive candidates respond 200
but hold different content: the tree extracted from the `v`-prefixed
candidate's archive (under `/tmp/p-1.0.0-gh`) hashes equal to the npm tree,
while the tree extracted from the bare candidate's archive (under
`/tmp/p-1.0.0-gh.tar`, the decompression destination of the `-gh.tar.gz`
file name) hashes differently. -/
def envRace : Env :=
  { baseEnv with
    sha1 := fun p =>
      if p = "/tmp/p-1.0.0-gh.tar/r-1.0.0/a.js" ∨ p = "/tmp/p-1.0.0-gh.tar/r-1.0.0/b.js" then
        .ok ("x")
      else .ok ("h") }

theorem isPrefixOf_append_self (l r : List Char) : l.isPrefixOf (l ++ r) = true := by
  induction l with
  | nil => simp [List.isPrefixOf]
  | cons c cs ih => simp [List.isPrefixOf, ih]

theorem dropFirstOcc_append (pat rest : List Char) :
    dropFirstOcc pat (pat ++ rest) = rest := by
  cases pat with
  | nil =>
    cases rest with
    | nil => rfl
    | cons c cs => simp [dropFirstOcc, List.isPrefixOf]
  | cons p ps =>
    show dropFirstOcc (p :: ps) (p :: (ps ++ rest)) = rest
    rw [dropFirstOcc]
    have hp : (p :: ps).isPrefixOf (p :: (ps ++ rest)) = true :=
      isPrefixOf_append_self (p :: ps) rest
    rw [if_pos hp]
    exact List.drop_left (p :: ps) rest

theorem replaceFirst_append (root r : String) : replaceFirst (root ++ r) root = r := by
  unfold replaceFirst
  rw [String.data_append, dropFirstOcc_append]

theorem dot_isPrefixOf_aux (v q : List Char) :
    ['.'].isPrefixOf (v ++ '/' :: q) = ['.'].isPrefixOf (v ++ ['/']) := by
  cases v with
  | nil => simp [List.isPrefixOf]
  | cons c cs => simp [List.isPrefixOf]

theorem sj_isPrefixOf_aux (u q : List Char) :
    ['s', 'j', '.'].isPrefixOf (u ++ '/' :: q) =
      ['s', 'j', '.'].isPrefixOf (u ++ ['/']) := by
  rcases u with _ | ⟨a, _ | ⟨b, v⟩⟩
  · simp [List.isPrefixOf]
  · simp [List.isPrefixOf]
  · simp only [List.cons_append, List.isPrefixOf, List.append_eq]
    rw [dot_isPrefixOf_aux]

theorem endsWithJs_append (pre rel : String) (h : rel.data.head? = some '/') :
    endsWithJs (pre ++ rel) = endsWithJs rel := by
  unfold endsWithJs
  rw [String.data_append, List.reverse_append]
  cases hd : rel.data with
  | nil => rw [hd] at h; simp at h
  | cons c t =>
    rw [hd] at h
    simp only [List.head?] at h
    cases h
    simp only [List.reverse_cons]
    rw [List.append_assoc, List.singleton_append, sj_isPrefixOf_aux]

theorem foldl_insertKey (l : List String) :
    ∀ acc : List String, l.Nodup → (∀ x ∈ l, x ∉ acc) →
      l.foldl insertKey acc = acc ++ l := by
  induction l with
  | nil => intro acc _ _; simp
  | cons a t ih =>
    intro acc hnd hdisj
    have ha : a ∉ acc := hdisj a (by simp)
    have step : insertKey acc a = acc ++ [a] := by simp [insertKey, ha]
    rw [List.foldl_cons, step, ih (acc ++ [a]) (List.nodup_cons.mp hnd).2]
    · simp
    · intro x hx
      simp only [List.mem_append, List.mem_singleton]
      rintro (hxa | rfl)
      · exact hdisj x (by simp [hx]) hxa
      · exact (List.nodup_cons.mp hnd).1 hx

theorem getFileMap_char (env : Env) (root : String) (rels : List String)
    (hwalk : env.walk root = .ok (rels.map (fun r => root ++ r)))
    (hslash : ∀ r ∈ rels, r.data.head? = some '/')
    (hnd : rels.Nodup) :
    getFileMap env root = .ok (rels.filter endsWithJs) := by
  have hfilter : (rels.map (fun r => root ++ r)).filter endsWithJs =
      (rels.filter endsWithJs).map (fun r => root ++ r) := by
    rw [List.filter_map]
    congr 1
    apply List.filter_congr
    intro r hr
    exact endsWithJs_append root r (hslash r hr)
  unfold getFileMap findFiles
  rw [hwalk]
  dsimp only
  rw [hfilter, List.foldl_map]
  have hrepl : ∀ acc r, insertKey acc (replaceFirst (root ++ r) root) = insertKey acc r := by
    intro acc r
    rw [replaceFirst_append]
  simp only [hrepl]
  rw [foldl_insertKey (rels.filter endsWithJs) [] (hnd.filter endsWithJs) (by simp)]
  simp


theorem compareLoop_char (env : Env) (npmRoot ghRoot : String) :
    ∀ (keys d w : List String),
      compareLoop env npmRoot ghRoot keys = .ok (d, w) →
      d = keys.filter (fun k => mismatchAt env npmRoot ghRoot k)
      ∧ w = keys.filter (fun k => !(fileExists env (ghRoot ++ k)))
      ∧ ∀ k ∈ keys, (∃ a, getHash env (npmRoot ++ k) = .ok a)
          ∧ (fileExists env (ghRoot ++ k) = true → ∃ b, getHash env (ghRoot ++ k) = .ok b) := by
  intro keys
  induction keys with
  | nil =>
    intro d w h
    rw [compareLoop, Except.ok.injEq, Prod.mk.injEq] at h
    obtain ⟨h1, h2⟩ := h
    subst h1
    subst h2
    exact ⟨rfl, rfl, by simp⟩
  | cons k ks ih =>
    intro d w h
    rw [compareLoop] at h
    cases hnpm : getHash env (npmRoot ++ k) with
    | error e => rw [hnpm] at h; exact absurd h (by simp)
    | ok a =>
      rw [hnpm] at h
      dsimp only at h
      cases hex : fileExists env (ghRoot ++ k) with
      | true =>
        rw [hex, if_pos rfl] at h
        cases hgh : getHash env (ghRoot ++ k) with
        | error e => rw [hgh] at h; exact absurd h (by simp)
        | ok b =>
          rw [hgh] at h
          dsimp only at h
          cases hrec : compareLoop env npmRoot ghRoot ks with
          | error e => rw [hrec] at h; exact absurd h (by simp)
          | ok dw =>
            rw [hrec] at h
            dsimp only at h
            rw [Except.ok.injEq, Prod.mk.injEq] at h
            obtain ⟨h1, h2⟩ := h
            subst h1
            subst h2
            obtain ⟨ihd, ihw, ihall⟩ := ih dw.1 dw.2 (by rw [hrec])
            have hmis : mismatchAt env npmRoot ghRoot k = (a != b) := by
              simp [mismatchAt, hex, hnpm, hgh]
            refine ⟨?_, ?_, ?_⟩
            · rw [List.filter_cons, hmis]
              by_cases hab : a = b
              · simp [hab, ihd]
              · simp [hab, ihd]
            · rw [List.filter_cons]
              simp [hex, ihw]
            · intro x hx
              rcases List.mem_cons.mp hx with rfl | hx2
              · exact ⟨⟨a, hnpm⟩, fun _ => ⟨b, hgh⟩⟩
              · exact ihall x hx2
      | false =>
        rw [hex, if_neg Bool.false_ne_true] at h
        cases hrec : compareLoop env npmRoot ghRoot ks with
        | error e => rw [hrec] at h; exact absurd h (by simp)
        | ok dw =>
          rw [hrec] at h
          dsimp only at h
          rw [Except.ok.injEq, Prod.mk.injEq] at h
          obtain ⟨h1, h2⟩ := h
          subst h1
          subst h2
          obtain ⟨ihd, ihw, ihall⟩ := ih dw.1 dw.2 (by rw [hrec])
          have hmis : mismatchAt env npmRoot ghRoot k = false := by
            simp [mismatchAt, hex]
          refine ⟨?_, ?_, ?_⟩
          · rw [List.filter_cons, hmis]
            simp [ihd]
          · rw [List.filter_cons]
            simp [hex, ihw]
          · intro x hx
            rcases List.mem_cons.mp hx with rfl | hx2
            · exact ⟨⟨a, hnpm⟩, fun hc => absurd hc (by simp [hex])⟩
            · exact ihall x hx2

theorem runDeps_report (env : Env) (base tempDir : String) :
    ∀ (deps : List (String × Option String)) (ocs : List (String × Outcome))
      (rep : List (String × Nat)),
      runDeps env base tempDir deps = .ok (ocs, rep) →
      rep = ocs.filterMap (fun p =>
        match p.2 with
        | .MISMATCH paths => some (p.1, paths.length)
        | _ => none) := by
  intro deps
  induction deps with
  | nil =>
    intro ocs rep h
    rw [runDeps, Except.ok.injEq, Prod.mk.injEq] at h
    obtain ⟨h1, h2⟩ := h
    subst h1
    subst h2
    rfl
  | cons entry rest ih =>
    intro ocs rep h
    rw [runDeps] at h
    cases hm : getPackageInfoFromRegistry env base entry.1 with
    | error err => rw [hm] at h; exact absurd h (by simp)
    | ok info =>
      rw [hm] at h
      dsimp only at h
      cases hr : runDeps env base tempDir rest with
      | error err => rw [hr] at h; exact absurd h (by simp)
      | ok tl =>
        rw [hr] at h
        dsimp only at h
        rw [Except.ok.injEq, Prod.mk.injEq] at h
        obtain ⟨h1, h2⟩ := h
        subst h1
        subst h2
        have ihr := ih tl.1 tl.2 (by rw [hr])
        cases hoc : processDependency env base tempDir entry.1 entry.2 info with
        | OK => simp [List.filterMap_cons, ihr]
        | MISMATCH paths => simp [List.filterMap_cons, ihr]
        | ERRORC e => simp [List.filterMap_cons, ihr]
        | INNERERR m => simp [List.filterMap_cons, ihr]
        | silent => simp [List.filterMap_cons, ihr]

theorem compareStage_shape (env : Env) (npmRoot ghRoot : String)
    (keys d w : List String)
    (h : compareLoop env npmRoot ghRoot keys = .ok (d, w)) :
    (compareStage env npmRoot ghRoot keys = .OK ↔ d = [])
    ∧ (d ≠ [] → compareStage env npmRoot ghRoot keys = .MISMATCH d) := by
  unfold compareStage
  rw [h]
  dsimp only
  by_cases hd : d = []
  · subst hd
    simp
  · have hlen : d.length ≠ 0 := by simpa using hd
    rw [if_neg hlen]
    simp [hd]

theorem mismatchAt_eq_false_iff (env : Env) (npmRoot ghRoot k : String)
    (ha : ∃ a, getHash env (npmRoot ++ k) = .ok a)
    (hb : fileExists env (ghRoot ++ k) = true → ∃ b, getHash env (ghRoot ++ k) = .ok b) :
    mismatchAt env npmRoot ghRoot k = false ↔
      (fileExists env (ghRoot ++ k) = true →
        getHash env (npmRoot ++ k) = getHash env (ghRoot ++ k)) := by
  cases hex : fileExists env (ghRoot ++ k) with
  | false =>
    simp [mismatchAt, hex]
  | true =>
    obtain ⟨a, hA⟩ := ha
    obtain ⟨b, hB⟩ := hb hex
    simp [mismatchAt, hex, hA, hB]

/-- Claim C1, counterexample. The claim says the final report includes the
full list of divergent paths for a mismatched dependency, not merely a count.
In the code the report accumulator stores `(name, differentFiles.length)`
only: two runs whose mismatched paths differ (`/a.js` against `/b.js`) have
different per-dependency mismatch outcomes yet byte-identical final reports
`[("p", 1)]`, so the report cannot include the path list. -/
theorem C1_counterexample :
    (verify envA [("p", some ("1.0.0"))] "/tmp" none ⟨DEFAULT_REGISTRY⟩).1 =
      .ok ([("p", .MISMATCH ["/a.js"])], [("p", 1)])
    ∧ (verify envB [("p", some ("1.0.0"))] "/tmp" none ⟨DEFAULT_REGISTRY⟩).1 =
      .ok ([("p", .MISMATCH ["/b.js"])], [("p", 1)])
    ∧ ["/a.js"] ≠ ["/b.js"] := by
  refine ⟨by decide, by decide, by decide⟩

/-- Claim C1, amended. For a dependency whose comparison loop completes, the
outcome is OK exactly when every compared file pair (npm-side file that also
exists on the GitHub side) has equal hashes, and otherwise is the mismatch
outcome carrying all divergent paths in comparison order; the run's final
report, however, records only `(name, count)` for each mismatched dependency,
not the path list. -/
theorem C1_amended (env : Env) (npmRoot ghRoot : String) (keys d w : List String)
    (base tempDir : String) (deps : List (String × Option String))
    (ocs : List (String × Outcome)) (rep : List (String × Nat))
    (h : compareLoop env npmRoot ghRoot keys = .ok (d, w))
    (hr : runDeps env base tempDir deps = .ok (ocs, rep)) :
    (compareStage env npmRoot ghRoot keys = .OK ↔
      ∀ k ∈ keys, fileExists env (ghRoot ++ k) = true →
        getHash env (npmRoot ++ k) = getHash env (ghRoot ++ k))
    ∧ (d ≠ [] → compareStage env npmRoot ghRoot keys = .MISMATCH d)
    ∧ rep = ocs.filterMap (fun p =>
        match p.2 with
        | .MISMATCH paths => some (p.1, paths.length)
        | _ => none) := by
  obtain ⟨hd, hw, hall⟩ := compareLoop_char env npmRoot ghRoot keys d w h
  obtain ⟨hiff, hmm⟩ := compareStage_shape env npmRoot ghRoot keys d w h
  refine ⟨?_, hmm, runDeps_report env base tempDir deps ocs rep hr⟩
  rw [hiff, hd, List.filter_eq_nil_iff]
  constructor
  · intro hnil k hk hex
    have hf : mismatchAt env npmRoot ghRoot k = false := by
      simpa using hnil k hk
    exact (mismatchAt_eq_false_iff env npmRoot ghRoot k (hall k hk).1 (hall k hk).2).mp hf hex
  · intro hok k hk
    have hf : mismatchAt env npmRoot ghRoot k = false :=
      (mismatchAt_eq_false_iff env npmRoot ghRoot k (hall k hk).1 (hall k hk).2).mpr (hok k hk)
    simp [hf]

/-- Claim C1, witness: the amended theorem applied to the concrete
environment `envA`, whose package `p` has `/a.js` divergent and `/b.js`
equal. -/
theorem C1_amended_witness :
    (compareStage envA "/tmp/p-1.0.0-npm/package" "/tmp/p-1.0.0-gh/r-1.0.0"
        ["/a.js", "/b.js"] = .OK ↔
      ∀ k ∈ ["/a.js", "/b.js"],
        fileExists envA ("/tmp/p-1.0.0-gh/r-1.0.0" ++ k) = true →
        getHash envA ("/tmp/p-1.0.0-npm/package" ++ k) =
          getHash envA ("/tmp/p-1.0.0-gh/r-1.0.0" ++ k))
    ∧ (["/a.js"] ≠ ([] : List String) →
        compareStage envA "/tmp/p-1.0.0-npm/package" "/tmp/p-1.0.0-gh/r-1.0.0"
          ["/a.js", "/b.js"] = .MISMATCH ["/a.js"])
    ∧ [("p", 1)] = [("p", Outcome.MISMATCH ["/a.js"])].filterMap (fun p =>
        match p.2 with
        | .MISMATCH paths => some (p.1, paths.length)
        | _ => none) :=
  C1_amended envA "/tmp/p-1.0.0-npm/package" "/tmp/p-1.0.0-gh/r-1.0.0"
    ["/a.js", "/b.js"] ["/a.js"] [] DEFAULT_REGISTRY "/tmp" [("p", some ("1.0.0"))]
    [("p", Outcome.MISMATCH ["/a.js"])] [("p", 1)] (by decide) (by decide)

/-- Claim C4. In a completed comparison loop, a path present in the npm-side
file map but absent on the GitHub side never appears among the mismatched
paths, is recorded in the distinct missing-file warning list, and its absence
alone cannot turn a dependency whose remaining compared files are all
hash-equal away from the OK outcome. -/
theorem C4_missing (env : Env) (npmRoot ghRoot : String) (keys d w : List String)
    (h : compareLoop env npmRoot ghRoot keys = .ok (d, w)) :
    (∀ k ∈ keys, fileExists env (ghRoot ++ k) = false → k ∉ d ∧ k ∈ w)
    ∧ ((∀ k ∈ keys, fileExists env (ghRoot ++ k) = true →
          getHash env (npmRoot ++ k) = getHash env (ghRoot ++ k)) →
        compareStage env npmRoot ghRoot keys = .OK) := by
  obtain ⟨hd, hw, hall⟩ := compareLoop_char env npmRoot ghRoot keys d w h
  obtain ⟨hiff, _⟩ := compareStage_shape env npmRoot ghRoot keys d w h
  constructor
  · intro k hk hex
    constructor
    · rw [hd]
      intro hmem
      have hp := List.of_mem_filter hmem
      simp [mismatchAt, hex] at hp
    · rw [hw]
      exact List.mem_filter.mpr ⟨hk, by simp [hex]⟩
  · intro hok
    rw [hiff, hd, List.filter_eq_nil_iff]
    intro k hk
    have hf : mismatchAt env npmRoot ghRoot k = false :=
      (mismatchAt_eq_false_iff env npmRoot ghRoot k (hall k hk).1 (hall k hk).2).mpr (hok k hk)
    simp [hf]

/-- Claim C4, witness: in `envC4` the GitHub copy of `/b.js` is absent; the
loop completes with no mismatches, `/b.js` lands in the warning list only,
and the outcome is OK. -/
theorem C4_missing_witness :
    (∀ k ∈ ["/a.js", "/b.js"],
        fileExists envC4 ("/tmp/p-1.0.0-gh/r-1.0.0" ++ k) = false →
          k ∉ ([] : List String) ∧ k ∈ ["/b.js"])
    ∧ ((∀ k ∈ ["/a.js", "/b.js"],
          fileExists envC4 ("/tmp/p-1.0.0-gh/r-1.0.0" ++ k) = true →
          getHash envC4 ("/tmp/p-1.0.0-npm/package" ++ k) =
            getHash envC4 ("/tmp/p-1.0.0-gh/r-1.0.0" ++ k)) →
        compareStage envC4 "/tmp/p-1.0.0-npm/package" "/tmp/p-1.0.0-gh/r-1.0.0"
          ["/a.js", "/b.js"] = .OK) :=
  C4_missing envC4 "/tmp/p-1.0.0-npm/package" "/tmp/p-1.0.0-gh/r-1.0.0"
    ["/a.js", "/b.js"] [] ["/b.js"] (by decide)

/-- Claim C7, counterexample. The claim says the mismatched paths are put
into sorted order before the verdict is emitted. In `envC7` the npm file map
iterates `/b.js` before `/a.js`, both mismatch, and the emitted outcome is
`MISMATCH ["/b.js", "/a.js"]`, which is not sorted: no sorting happens
anywhere in the code. -/
theorem C7_counterexample :
    processDependency envC7 DEFAULT_REGISTRY "/tmp" "p" (some ("1.0.0")) infoStd =
      .MISMATCH ["/b.js", "/a.js"]
    ∧ ¬ List.Sorted (· ≤ ·) ["/b.js", "/a.js"] := by
  constructor
  · decide
  · intro hs
    have hle : ("/b.js" : String) ≤ "/a.js" := (List.sorted_cons.mp hs).1 _ (by simp)
    rw [String.le_iff_toList_le] at hle
    exact absurd hle (by decide)

/-- Claim C7, amended. The mismatched paths of a completed comparison loop
are exactly the npm file-map keys satisfying the mismatch condition, kept in
file-map iteration order (an order-preserving sublist of the keys); the
reporting order is the comparison order, and no sorting is applied. -/
theorem C7_amended (env : Env) (npmRoot ghRoot : String) (keys d w : List String)
    (h : compareLoop env npmRoot ghRoot keys = .ok (d, w)) :
    d = keys.filter (fun k => mismatchAt env npmRoot ghRoot k) ∧ d.Sublist keys := by
  obtain ⟨hd, _, _⟩ := compareLoop_char env npmRoot ghRoot keys d w h
  exact ⟨hd, hd ▸ List.filter_sublist keys⟩

/-- Claim C7, witness: the amended theorem applied to `envC7`, whose loop
emits both paths in iteration order `/b.js`, `/a.js`. -/
theorem C7_amended_witness :
    ["/b.js", "/a.js"] = ["/b.js", "/a.js"].filter
      (fun k => mismatchAt envC7 "/tmp/p-1.0.0-npm/package" "/tmp/p-1.0.0-gh/r-1.0.0" k)
    ∧ List.Sublist ["/b.js", "/a.js"] ["/b.js", "/a.js"] :=
  C7_amended envC7 "/tmp/p-1.0.0-npm/package" "/tmp/p-1.0.0-gh/r-1.0.0"
    ["/b.js", "/a.js"] ["/b.js", "/a.js"] [] (by decide)

/-- Claim C2, counterexample. The claim says every error while verifying one
dependency, including a failing registry metadata fetch, is caught at that
dependency's boundary and the run continues. The metadata fetch stands
outside the try of the loop body, so in `envMetaFail` the failing fetch for
package `a` rejects the whole run: no per-dependency error outcome is
produced and package `b` is never processed. -/
theorem C2_counterexample :
    (verify envMetaFail [("a", some ("1.0.0")), ("b", some ("1.0.0"))] "/tmp" none
        ⟨DEFAULT_REGISTRY⟩).1 = .error ("network down") := by
  decide

/-- Claim C2, amended. Every error thrown after the metadata fetch (download,
decompression, directory walk, hashing) is caught at the dependency boundary
and converted into a per-dependency error outcome, and the run continues
with the next manifest entry: whenever every metadata fetch succeeds, the
run completes with exactly one outcome per manifest entry in order, whatever
the rest of the environment does. A failing metadata fetch, however, aborts
the run. -/
theorem C2_amended (env : Env) (base tempDir : String)
    (deps : List (String × Option String))
    (h : ∀ entry ∈ deps, ∃ info, getPackageInfoFromRegistry env base entry.1 = .ok info) :
    ∃ ocs rep, runDeps env base tempDir deps = .ok (ocs, rep)
      ∧ ocs.map Prod.fst = deps.map Prod.fst := by
  induction deps with
  | nil => exact ⟨[], [], rfl, rfl⟩
  | cons entry rest ih =>
    obtain ⟨info, hinfo⟩ := h entry (by simp)
    obtain ⟨ocs, rep, hrun, hmap⟩ := ih (fun e he => h e (by simp [he]))
    refine ⟨(entry.1, processDependency env base tempDir entry.1 entry.2 info) :: ocs,
      (match processDependency env base tempDir entry.1 entry.2 info with
       | .MISMATCH paths => (entry.1, paths.length) :: rep
       | _ => rep), ?_, ?_⟩
    · rw [runDeps, hinfo]
      dsimp only
      rw [hrun]
    · simp [hmap]

/-- Claim C2, witness: in `env404` every download fails with status 404 but
all metadata fetches succeed, so the run completes with one outcome for the
single manifest entry. -/
theorem C2_amended_witness :
    (∀ entry ∈ [("p", some ("1.0.0"))],
        ∃ info, getPackageInfoFromRegistry env404 DEFAULT_REGISTRY entry.1 = .ok info)
    ∧ ∃ ocs rep,
        runDeps env404 DEFAULT_REGISTRY "/tmp" [("p", some ("1.0.0"))] = .ok (ocs, rep)
        ∧ ocs.map Prod.fst = [("p", some ("1.0.0"))].map Prod.fst :=
  ⟨fun _ _ => ⟨infoStd, rfl⟩,
    C2_amended env404 DEFAULT_REGISTRY "/tmp" [("p", some ("1.0.0"))]
      (fun _ _ => ⟨infoStd, rfl⟩)⟩

/-- Claim C3, counterexample. The claim says a dependency whose metadata
lacks a repository URL yields SKIPPED, never ERROR. In the code that
condition throws an `Error`, which the generic catch at the dependency
boundary handles like any other failure: in `envNoRepo` the produced outcome
is the caught-error outcome carrying that message, and the code has no
distinct skipped outcome at all. -/
theorem C3_counterexample :
    (verify envNoRepo [("p", some ("1.0.0"))] "/tmp" none ⟨DEFAULT_REGISTRY⟩).1 =
      .ok ([("p", .ERRORC (.simple ("package info doesn\x27t contains repository info")))],
        []) := by
  decide

/-- Claim C3, amended. A dependency whose fetched metadata lacks a repository
URL yields the caught-error outcome carrying the thrown message (the same
error path as any other per-dependency failure, with no distinct skipped
outcome and never OK), and the run continues with the remaining manifest
entries. -/
theorem C3_amended (env : Env) (base tempDir key : String) (ver : Option String)
    (info : PackageInfo) (rest : List (String × Option String))
    (ocs : List (String × Outcome)) (rep : List (String × Nat))
    (hmeta : getPackageInfoFromRegistry env base key = .ok info)
    (hrepo : info.repositoryUrl = none)
    (hrest : runDeps env base tempDir rest = .ok (ocs, rep)) :
    runDeps env base tempDir ((key, ver) :: rest) =
      .ok ((key, .ERRORC (.simple ("package info doesn\x27t contains repository info"))) :: ocs,
        rep) := by
  have hproc : processDependency env base tempDir key ver info =
      .ERRORC (.simple ("package info doesn\x27t contains repository info")) := by
    simp [processDependency, downloadCompressedFileFromGitHub, hrepo]
  rw [runDeps]
  dsimp only
  rw [hmeta]
  dsimp only
  rw [hproc, hrest]

/-- Claim C3, witness: the amended theorem applied to `envNoRepo` with an
empty remainder of the manifest. -/
theorem C3_amended_witness :
    runDeps envNoRepo DEFAULT_REGISTRY "/tmp" [("p", some ("1.0.0"))] =
      .ok ([("p", .ERRORC (.simple ("package info doesn\x27t contains repository info")))],
        []) :=
  C3_amended envNoRepo DEFAULT_REGISTRY "/tmp" "p" (some ("1.0.0"))
    { repositoryUrl := none, distTagsLatest := some ("2.0.0") } [] [] []
    rfl rfl rfl

/-- Claim C5. For the ordered pair of candidate archive URLs (`v<version>`
then `<version>`): a succeeding first candidate yields its content; when the
first candidate fails and the second succeeds, the fetch succeeds with the
second candidate's content; when both fail, the fetch fails with the
aggregate error preserving each candidate's failure in order; and a 2xx
response makes a candidate's download succeed with its destination path. -/
theorem C5_race (env : Env) (tempDir name ru user repo : String) (version : Option String)
    (info : PackageInfo)
    (hrepo : info.repositoryUrl = some ru) (hru : ru.isEmpty = false)
    (hparse : env.parseGitHub ru = (user, repo)) :
    (∀ p1, downloadFile env tempDir (ghArchiveUrlV user repo (jsShow version))
        (ghTgzName name (jsShow version)) = .ok p1 →
      downloadCompressedFileFromGitHub env tempDir name version info = .ok (p1, repo))
    ∧ (∀ e1 p2, downloadFile env tempDir (ghArchiveUrlV user repo (jsShow version))
        (ghTgzName name (jsShow version)) = .error e1 →
      downloadFile env tempDir (ghArchiveUrlPlain user repo (jsShow version))
        (ghTarGzName name (jsShow version)) = .ok p2 →
      downloadCompressedFileFromGitHub env tempDir name version info = .ok (p2, repo))
    ∧ (∀ e1 e2, downloadFile env tempDir (ghArchiveUrlV user repo (jsShow version))
        (ghTgzName name (jsShow version)) = .error e1 →
      downloadFile env tempDir (ghArchiveUrlPlain user repo (jsShow version))
        (ghTarGzName name (jsShow version)) = .error e2 →
      downloadCompressedFileFromGitHub env tempDir name version info =
        .error (.arr [e1, e2]))
    ∧ (∀ url fn c, env.http url = .status c → status2xx c = true →
      downloadFile env tempDir url fn = .ok (resolvePath tempDir fn)) := by
  have key : downloadCompressedFileFromGitHub env tempDir name version info =
      match promiseAny
          [downloadFile env tempDir (ghArchiveUrlV user repo (jsShow version))
            (ghTgzName name (jsShow version)),
           downloadFile env tempDir (ghArchiveUrlPlain user repo (jsShow version))
            (ghTarGzName name (jsShow version))] with
      | .ok p => .ok (p, repo)
      | .error es => .error (.arr es) := by
    unfold downloadCompressedFileFromGitHub
    rw [hrepo]
    dsimp only
    rw [hru, if_neg Bool.false_ne_true, hparse]
  refine ⟨?_, ?_, ?_, ?_⟩
  · intro p1 h1
    rw [key, h1]
    simp [promiseAny]
  · intro e1 p2 h1 h2
    rw [key, h1, h2]
    simp [promiseAny]
  · intro e1 e2 h1 h2
    rw [key, h1, h2]
    simp [promiseAny]
  · intro url fn c hc h2
    unfold downloadFile
    rw [hc]
    dsimp only
    rw [h2, if_pos rfl]

/-- Claim C5, witness: in `envSecond` the `v1.0.0` candidate responds 404 and
the bare `1.0.0` candidate responds 200, and the fetch succeeds with the
second candidate's destination path. -/
theorem C5_race_witness :
    downloadFile envSecond "/tmp" (ghArchiveUrlV "u" "r" (jsShow (some ("1.0.0"))))
        (ghTgzName "p" (jsShow (some ("1.0.0")))) = .error ("404")
    ∧ downloadFile envSecond "/tmp" (ghArchiveUrlPlain "u" "r" (jsShow (some ("1.0.0"))))
        (ghTarGzName "p" (jsShow (some ("1.0.0")))) = .ok ("/tmp/p-1.0.0-gh.tar.gz")
    ∧ downloadCompressedFileFromGitHub envSecond "/tmp" "p" (some ("1.0.0")) infoStd =
        .ok ("/tmp/p-1.0.0-gh.tar.gz", "r") :=
  ⟨by decide, by decide,
    (C5_race envSecond "/tmp" "p" "https://github.com/u/r.git" "u" "r" (some ("1.0.0"))
        infoStd rfl rfl rfl).2.1 "404" "/tmp/p-1.0.0-gh.tar.gz" (by decide) (by decide)⟩

/-- Claim C6. When the walk of `root` lists the files of a tree given by
root-relative paths that each start with a slash, `getFileMap` produces
exactly those relative paths that end in ".js" as keys, each still starting
with the slash separator; consequently two roots holding the same internal
layout produce string-identical key lists. -/
theorem C6_fileMap (env : Env) (root : String) (rels : List String)
    (hwalk : env.walk root = .ok (rels.map (fun r => root ++ r)))
    (hslash : ∀ r ∈ rels, r.data.head? = some '/')
    (hnd : rels.Nodup) :
    getFileMap env root = .ok (rels.filter endsWithJs)
    ∧ (∀ k ∈ rels.filter endsWithJs, k.data.head? = some '/')
    ∧ ∀ (env2 : Env) (root2 : String),
        env2.walk root2 = .ok (rels.map (fun r => root2 ++ r)) →
        getFileMap env2 root2 = getFileMap env root := by
  refine ⟨getFileMap_char env root rels hwalk hslash hnd, ?_, ?_⟩
  · intro k hk
    exact hslash k (List.mem_of_mem_filter hk)
  · intro env2 root2 h2
    rw [getFileMap_char env2 root2 rels h2 hslash hnd,
      getFileMap_char env root rels hwalk hslash hnd]

/-- Claim C6, witness: the file-map characterization applied to `baseEnv`'s
npm package tree, whose two script files map to the keys `/a.js`, `/b.js`. -/
theorem C6_fileMap_witness :
    getFileMap baseEnv "/tmp/p-1.0.0-npm/package" =
      .ok (["/a.js", "/b.js"].filter endsWithJs)
    ∧ (∀ k ∈ ["/a.js", "/b.js"].filter endsWithJs, k.data.head? = some '/')
    ∧ ∀ (env2 : Env) (root2 : String),
        env2.walk root2 = .ok (["/a.js", "/b.js"].map (fun r => root2 ++ r)) →
        getFileMap env2 root2 = getFileMap baseEnv "/tmp/p-1.0.0-npm/package" :=
  C6_fileMap baseEnv "/tmp/p-1.0.0-npm/package" ["/a.js", "/b.js"]
    (by decide) (by decide) (by decide)

/-- Claim C8, counterexample. The claim says two runs on the same manifest
with unchanged artifacts yield identical verdict sequences. The GitHub
download races two candidates with `promise-any`, which resolves with the
temporally first fulfilled candidate: in `envRace` both candidates respond
200 with different archive content, and with identical network responses and
file contents the run whose race the `v`-tag candidate wins reports OK while
the run the bare-tag candidate wins reports a mismatch — so unchanged
artifacts alone do not determine the verdicts. -/
theorem C8_counterexample :
    (verifyTimed envRace (fun _ => true) [("p", some ("1.0.0"))] "/tmp" none
        ⟨DEFAULT_REGISTRY⟩).1 = .ok ([("p", .OK)], [])
    ∧ (verifyTimed envRace (fun _ => false) [("p", some ("1.0.0"))] "/tmp" none
        ⟨DEFAULT_REGISTRY⟩).1 =
      .ok ([("p", .MISMATCH ["/a.js", "/b.js"])], [("p", 2)]) := by
  refine ⟨by decide, by decide⟩

/-- Claim C8, amended. Running `verify` twice on the same manifest with
unchanged artifacts (identical network responses and file contents) and the
same race resolutions (each dependency's download race won by the same
candidate in both runs) yields identical results, the order of outcomes
included: beyond the race timing, the only state carried between runs is the
module-level registry URL, and the second run observes the same effective
URL as the first. -/
theorem C8_amended (env : Env) (sched : String → Bool)
    (dependencies : List (String × Option String))
    (tempDir : String) (registryUrl : Option String) (st : ModuleState) :
    (verifyTimed env sched dependencies tempDir registryUrl
        ((verifyTimed env sched dependencies tempDir registryUrl st).2)).1 =
      (verifyTimed env sched dependencies tempDir registryUrl st).1
    ∧ (verifyTimed env sched dependencies tempDir registryUrl
        ((verifyTimed env sched dependencies tempDir registryUrl st).2)).2 =
      (verifyTimed env sched dependencies tempDir registryUrl st).2 := by
  have hstable : effectiveRegistry registryUrl ⟨effectiveRegistry registryUrl st⟩ =
      effectiveRegistry registryUrl st := by
    cases registryUrl with
    | none => rfl
    | some r =>
      by_cases hr : r.isEmpty
      · simp [effectiveRegistry, hr]
      · simp [effectiveRegistry, hr]
  unfold verifyTimed
  dsimp only
  rw [hstable]
  exact ⟨rfl, rfl⟩

/-- Claim C9, counterexample. The claim says the registry-side download
resolves an absent version to the registry's `dist-tags.latest` before
building the tarball URL. `getPackageLatestVersion` awaits the raw `request`
library call, which returns a Request stream, so the `dist-tags` member
access always throws a `TypeError`: even against a registry that serves a
document with latest tag 2.0.0, the registry-side download for an absent
version rejects with that `TypeError` and never builds a tarball URL from
the latest tag. -/
theorem C9_counterexample :
    downloadCompressedFileFromNpm baseEnv DEFAULT_REGISTRY "/tmp" "p" none =
      .error (.simple ("TypeError: Cannot read property of undefined")) := by
  decide

/-- Claim C9, amended. For a manifest entry with no version field: the
registry-side download attempts to resolve the version via
`dist-tags.latest`, but the raw-`request` misuse makes that lookup always
throw a `TypeError`, so the registry-side download always rejects (for every
environment) and no tarball URL is built; the GitHub candidate URLs and the
GitHub-side comparison directory are meanwhile built from the absent
version, which renders as the literal text "undefined". -/
theorem C9_amended (env : Env) (base tempDir name user repo ghDec : String) :
    downloadCompressedFileFromNpm env base tempDir name none =
      .error (.simple ("TypeError: Cannot read property of undefined"))
    ∧ ghArchiveUrlV user repo (jsShow none) =
        "https://github.com/" ++ user ++ "/" ++ repo ++ "/archive/vundefined.tar.gz"
    ∧ ghArchiveUrlPlain user repo (jsShow none) =
        "https://github.com/" ++ user ++ "/" ++ repo ++ "/archive/undefined.tar.gz"
    ∧ ghCompareRoot ghDec repo none = ghDec ++ "/" ++ repo ++ "-undefined" := by
  refine ⟨rfl, ?_, ?_, ?_⟩
  · unfold ghArchiveUrlV jsShow
    rw [String.append_assoc, String.append_assoc]
    rfl
  · unfold ghArchiveUrlPlain jsShow
    rw [String.append_assoc, String.append_assoc]
    rfl
  · unfold ghCompareRoot jsShow
    rw [String.append_assoc]
    rfl

/-- Claim C10. The registry base URL is module-level mutable state: after a
call of `verify` with a truthy non-default registry URL `u`, the module
state holds `u`, and a later call with no registry URL argument runs its
whole dependency loop (and therefore every registry request) against `u`
instead of the default public registry. -/
theorem C10_global_state (env env2 : Env) (deps deps2 : List (String × Option String))
    (tempDir tempDir2 u : String) (st : ModuleState) (hu : u.isEmpty = false) :
    (verify env deps tempDir (some u) st).2 = ⟨u⟩
    ∧ (verify env2 deps2 tempDir2 none ((verify env deps tempDir (some u) st).2)).1 =
        runDeps env2 u tempDir2 deps2 := by
  have h2 : effectiveRegistry (some u) st = u := by
    simp [effectiveRegistry, hu]
  unfold verify
  dsimp only
  rw [h2]
  exact ⟨rfl, rfl⟩

/-- Claim C10, witness: after a run against a mirror registry, a later run
with no registry argument still uses the mirror, not the default. -/
theorem C10_global_state_witness :
    (verify baseEnv [] "/tmp" (some ("https://mirror.example")) ⟨DEFAULT_REGISTRY⟩).2 =
      ⟨"https://mirror.example"⟩
    ∧ (verify env404 [("p", some ("1.0.0"))] "/tmp" none
        ((verify baseEnv [] "/tmp" (some ("https://mirror.example")) ⟨DEFAULT_REGISTRY⟩).2)).1 =
      runDeps env404 "https://mirror.example" "/tmp" [("p", some ("1.0.0"))] :=
  C10_global_state baseEnv env404 [] [("p", some ("1.0.0"))] "/tmp" "/tmp"
    "https://mirror.example" ⟨DEFAULT_REGISTRY⟩ (by decide)

end DepVerify
